import Mathlib

set_option maxRecDepth 8000

/-!
Verification of the genotype data layer of flashpca (src/data.cpp).

The C++ code is shallowly embedded: byte buffers become lists of natural
numbers (each byte a value below 256), Eigen vectors become lists, `double`
arithmetic is modelled exactly over the rationals, with the single square
root (used by the standardizer) taken over the reals.  Stateful member
functions of `Data` become explicit state-passing functions on a `DataState`
structure.

Numeric constants (PACK_DENSITY, MASK0..MASK3, PLINK_NA, PLINK_OFFSET) are
declared in data.hpp, which is not part of the provided sources; their values
are forced by the packing format the specification describes (2 bits per
sample packed low-to-high, 4 samples per byte, 3 header bytes, decoded
missing sentinel 3) and by the comment table at the top of data.cpp.
-/

/-- Number of samples packed per byte (data.hpp; spec: 4 samples per byte). -/
def PACK_DENSITY : ℕ := 4

/-- Mask for the lowest 2-bit group of a byte (data.hpp). -/
def MASK0 : ℕ := 3

/-- Mask for the second 2-bit group of a byte (data.hpp). -/
def MASK1 : ℕ := 12

/-- Mask for the third 2-bit group of a byte (data.hpp). -/
def MASK2 : ℕ := 48

/-- Mask for the highest 2-bit group of a byte (data.hpp). -/
def MASK3 : ℕ := 192

/-- Decoded missing-genotype sentinel (data.hpp; the decoder emits 3 for the
raw 2-bit pattern 01, see the comment table in data.cpp). -/
def PLINK_NA : ℕ := 3

/-- Size in bytes of the PLINK BED header (magic + mode bytes). -/
def PLINK_OFFSET : ℕ := 3

/-- One 2-bit group decoded as in the body of decode_plink:
a1 = !(geno & 1), a2 = !(geno >> 1), result (geno == 1) ? 3 : a1 + a2. -/
def geno_code (geno : ℕ) : ℕ :=
  if geno = 1 then 3
  else (if geno &&& 1 = 0 then 1 else 0) + (if geno >>> 1 = 0 then 1 else 0)

/-- One loop iteration of decode_plink: byte tmp produces the four codes
written to out[k..k+3], extracted with MASK0..MASK3 and shifts. -/
def decode_byte (tmp : ℕ) : List ℕ :=
  [ geno_code (tmp &&& MASK0),
    geno_code ((tmp &&& MASK1) >>> 2),
    geno_code ((tmp &&& MASK2) >>> 4),
    geno_code ((tmp &&& MASK3) >>> 6) ]

/-- decode_plink: each input byte yields PACK_DENSITY output codes, in input
order. -/
def decode_plink (inp : List ℕ) : List ℕ :=
  inp.flatMap decode_byte

/-- The reference decoding rule, written from the spec's words: take the
2-bit groups of the byte low-to-high; for a group g, a1 = 1 if bit0 of g is
0 else 0, a2 = 1 if bit1 of g is 0 else 0; pattern binary 01 is the missing
sentinel, otherwise the code is the dosage a1 + a2. -/
def spec_code (g : ℕ) : ℕ :=
  if g % 4 = 1 then PLINK_NA
  else (if g.testBit 0 then 0 else 1) + (if g.testBit 1 then 0 else 1)

/-- The reference table entry for a whole byte: its four 2-bit groups taken
low-to-high, each decoded by the spec rule. -/
def spec_decode_byte (b : ℕ) : List ℕ :=
  [ spec_code (b % 4),
    spec_code (b / 4 % 4),
    spec_code (b / 16 % 4),
    spec_code (b / 64 % 4) ]


/-!
## The standardizer: Data::load_snp_double

The first pass over the samples (accumulating the selected genotype array
`geno`, the non-missing count `ngood` and the non-missing sum `sum`) is
`loop1`; the second, descending pass accumulating `sum2` is `loop2`.
`double` arithmetic is modelled exactly over ℚ; the single square root is
taken in ℝ.  `ngood - 1` is computed on `unsigned int`, so it is embedded
with an explicit wraparound modulo 2^32.
-/

/-- First loop of load_snp_double over (mask_curr(i), tmp2[i]) pairs:
builds the selected genotype array and accumulates ngood and sum over
non-missing values. -/
def loop1 : List (Bool × ℕ) → List ℚ × ℕ × ℚ
  | [] => ([], 0, 0)
  | p :: t =>
      let r := loop1 t
      if p.1 then
        if (p.2 : ℚ) = (PLINK_NA : ℕ) then ((p.2 : ℚ) :: r.1, r.2.1, r.2.2)
        else ((p.2 : ℚ) :: r.1, r.2.1 + 1, r.2.2 + (p.2 : ℚ))
      else r

/-- Second loop of load_snp_double: descending over the selected array,
sum2 += (v - mean)^2 for each non-missing v. -/
def loop2 (geno : List ℚ) (mean : ℚ) : ℚ :=
  geno.reverse.foldl
    (fun sum2 v => if v = (PLINK_NA : ℚ) then sum2 else sum2 + (v - mean) * (v - mean)) 0

/-- The selected genotype array (the `geno` buffer after the first loop). -/
def genoOf (g : List ℕ) (mask : List Bool) : List ℚ :=
  (loop1 (mask.zip g)).1

/-- The non-missing count `ngood` after the first loop. -/
def ngoodOf (g : List ℕ) (mask : List Bool) : ℕ :=
  (loop1 (mask.zip g)).2.1

/-- The non-missing sum `sum` after the first loop. -/
def sumOf (g : List ℕ) (mask : List Bool) : ℚ :=
  (loop1 (mask.zip g)).2.2

/-- mean = sum / k, where k counts the selected samples. -/
def meanOf (g : List ℕ) (mask : List Bool) : ℚ :=
  sumOf g mask / ((genoOf g mask).length : ℚ)

/-- sum2, accumulated by the second (descending) loop. -/
def sum2Of (g : List ℕ) (mask : List Bool) : ℚ :=
  loop2 (genoOf g mask) (meanOf g mask)

/-- The divisor `ngood - 1`, computed on unsigned int, hence with
wraparound modulo 2^32 when ngood = 0. -/
def denomOf (g : List ℕ) (mask : List Bool) : ℕ :=
  (ngoodOf g mask + 2 ^ 32 - 1) % 2 ^ 32

/-- sd = sqrt(sum2 / (ngood - 1)). -/
noncomputable def sdOf (g : List ℕ) (mask : List Bool) : ℝ :=
  Real.sqrt ((sum2Of g mask : ℝ) / (denomOf g mask : ℝ))

/-- The fast-path output loop taken when ngood == Ncurr:
geno[i] = (geno[i] - mean) / sd for every i. -/
noncomputable def fastBranch (mean : ℚ) (sd : ℝ) (geno : List ℚ) : List ℝ :=
  geno.map (fun (v : ℚ) => ((v : ℝ) - ((mean : ℚ) : ℝ)) / sd)

/-- The general output loop: missing entries become mean/sd, the rest
(v - mean)/sd. -/
noncomputable def imputeBranch (mean : ℚ) (sd : ℝ) (geno : List ℚ) : List ℝ :=
  geno.map (fun v =>
    if v = (PLINK_NA : ℚ) then ((mean : ℚ) : ℝ) / sd
    else ((v : ℝ) - (mean : ℚ)) / sd)

/-- Data::load_snp_double on decoded codes g and the current mask: the two
accumulation loops, then either the no-missing fast path or the imputing
general path. -/
noncomputable def load_snp_double (g : List ℕ) (mask : List Bool) : List ℝ :=
  if ngoodOf g mask = (genoOf g mask).length then
    fastBranch (meanOf g mask) (sdOf g mask) (genoOf g mask)
  else
    imputeBranch (meanOf g mask) (sdOf g mask) (genoOf g mask)

/-!
Spec-side quantities, written from the specification's words: the values of
the selected samples, the non-missing values among them, the first-pass mean
divided by the number of selected samples, and the standard deviation over
non-missing values with denominator countNonMissing - 1.
-/

/-- The dosage values of the samples selected by the active mask. -/
def selVals (g : List ℕ) (mask : List Bool) : List ℚ :=
  ((mask.zip g).filter (fun p => p.1)).map (fun p => (p.2 : ℚ))

/-- The non-missing selected values. -/
def nonMissing (g : List ℕ) (mask : List Bool) : List ℚ :=
  (selVals g mask).filter (fun v => decide (v ≠ (PLINK_NA : ℕ)))

/-- Spec mean: sum of non-missing dosages divided by the number of selected
samples (countSelected, not countNonMissing). -/
def specMean (g : List ℕ) (mask : List Bool) : ℚ :=
  (nonMissing g mask).sum / ((selVals g mask).length : ℚ)

/-- Spec sum of squared deviations over non-missing values. -/
def specSum2 (g : List ℕ) (mask : List Bool) : ℚ :=
  ((nonMissing g mask).map
    (fun v => (v - specMean g mask) * (v - specMean g mask))).sum

/-- Spec sd: sqrt of specSum2 / (countNonMissing - 1). -/
noncomputable def specSd (g : List ℕ) (mask : List Bool) : ℝ :=
  Real.sqrt ((specSum2 g mask : ℝ) / (((nonMissing g mask).length - 1 : ℕ) : ℝ))

/-- The non-missing test (v != PLINK_NA) as a Boolean predicate on ℚ. -/
def isGood (v : ℚ) : Bool := decide (v ≠ ((PLINK_NA : ℕ) : ℚ))


/-!
## The Data facade state

Member variables of class Data become fields of `DataState`.  The mapped
file handle (boost mapped_file_source) is modelled as an optional file id.
The Cache class is declared in cache.hpp/data.hpp, which is not under the
provided sources; its operations are modelled from the spec (section 4.4).
-/

/-- The two data modes (DATA_MODE_TRAIN / DATA_MODE_TEST from data.hpp). -/
inductive Mode where
  | train : Mode
  | test : Mode
deriving DecidableEq

/-- Modelled from the spec: the Cache class (variant index -> standardized
vector) is not under the provided sources.  Entries are kept in recency
order, most recent first, and bounded by a byte budget (each entry holds n
8-byte doubles). -/
structure CacheT where
  n : ℕ
  nsnps : ℕ
  maxbytes : ℕ
  entries : List (ℕ × List ℝ)

/-- Modelled from the spec: the Cache constructor `new Cache(Ntrain, nsnps,
cachemem)` builds an empty cache sized to vectors of length n. -/
def CacheT.mk0 (n nsnps maxbytes : ℕ) : CacheT :=
  ⟨n, nsnps, maxbytes, []⟩

/-- Modelled from the spec: cache lookup; a hit returns the stored vector
and moves its entry to the front of the recency order, a miss leaves the
cache unchanged. -/
def CacheT.get (c : CacheT) (j : ℕ) : Option (List ℝ) × CacheT :=
  match c.entries.find? (fun e => e.1 == j) with
  | some e => (some e.2, { c with entries := e :: c.entries.filter (fun x => !(x.1 == j)) })
  | none => (none, c)

/-- Modelled from the spec: cache insertion at the front of the recency
order, evicting least-recently-used entries beyond the byte budget. -/
def CacheT.put (c : CacheT) (j : ℕ) (v : List ℝ) : CacheT :=
  let es := (j, v) :: c.entries.filter (fun x => !(x.1 == j))
  { c with entries := es.take (max 1 (c.maxbytes / (8 * c.n))) }

/-- The member variables of class Data used by the verified operations. -/
structure DataState where
  N : ℕ
  nsnps : ℕ
  ncovar : ℕ
  np : ℕ
  len : ℕ
  geno_filename : Option ℕ
  geno_fin : Option ℕ
  bed : List ℕ
  mode : Mode
  Ntrain : ℕ
  Ntest : ℕ
  Ncurr : ℕ
  mask_train : List Bool
  mask_test : List Bool
  mask_curr : List Bool
  ones : List ℝ
  zeros : List ℝ
  folds : List ℤ
  Y : List (List ℝ)
  Ytrain : List (List ℝ)
  Ytest : List (List ℝ)
  X2 : List (List ℝ)
  covar_actions : List Bool
  geno : List ℝ
  cache : CacheT
  cachemem : ℕ

/-- The error taxonomy of the spec (section 7). -/
inductive DErr where
  | ioError : DErr
  | configError : DErr
  | dataError : DErr
deriving DecidableEq

/-- Data::set_mode: select the active mask, the matching Ncurr, and
precompute the ones and zeros vectors of that length. -/
noncomputable def set_mode (st : DataState) (m : Mode) : DataState :=
  let Ncurr := if m = Mode.train then st.Ntrain else st.Ntest
  { st with
    mode := m
    Ncurr := Ncurr
    mask_curr := if m = Mode.train then st.mask_train else st.mask_test
    ones := List.replicate Ncurr (1 : ℝ)
    zeros := List.replicate Ncurr (0 : ℝ) }

/-- The np bytes of variant j in the mapped file (data + PLINK_OFFSET +
j * np), decoded by decode_plink. -/
def snpCodes (st : DataState) (j : ℕ) : List ℕ :=
  decode_plink ((st.bed.drop (PLINK_OFFSET + j * st.np)).take st.np)

/-- Data::load_snp / Data::load_snp_double on the state: decode variant j
from the mapped file and standardize it under the current mask. -/
noncomputable def load_snp (st : DataState) (j : ℕ) : List ℝ :=
  load_snp_double (snpCodes st j) st.mask_curr

/-- Data::get_snp: in train mode consult the cache and insert on a miss;
in test mode load from disk directly, leaving the cache untouched. -/
noncomputable def get_snp (st : DataState) (j : ℕ) : List ℝ × DataState :=
  if st.mode = Mode.train then
    match st.cache.get j with
    | (some v, c) => (v, { st with cache := c, geno := v })
    | (none, c) =>
        let g := load_snp st j
        (g, { st with cache := c.put j g, geno := g })
  else
    let g := load_snp st j
    (g, { st with geno := g })

/-- The covariate-column loop of Data::get_coordinate: X2(i, cidx) for
every i < N selected by the current mask. -/
def maskedColumn (X2 : List (List ℝ)) (mask : List Bool) (cidx : ℕ) : List ℝ :=
  ((mask.zip X2).filter (fun p => p.1)).map (fun p => p.2.getD cidx 0)

/-- Data::get_coordinate: 0 is the intercept, 1..nsnps the variants,
beyond that the covariates, with train-only covariates replaced by the
zeros vector in test mode. -/
noncomputable def get_coordinate (st : DataState) (j : ℕ) : List ℝ × DataState :=
  if j = 0 then (st.ones, st)
  else if j ≤ st.nsnps then get_snp st (j - 1)
  else if st.mode = Mode.test ∧
      st.covar_actions.getD (j - st.nsnps - 1) false = true then
    (st.zeros, st)
  else
    (maskedColumn st.X2 st.mask_curr (j - st.nsnps - 1), st)

/-- Data::split_data: recompute the fold masks and Ntrain/Ntest, reslice
the phenotype matrix, and destroy and reconstruct the cache sized to the
new Ntrain. -/
def split_data (st : DataState) (fold : ℤ) : DataState :=
  let mtest := st.folds.map (fun x => decide (x = fold))
  let mtrain := st.folds.map (fun x => !decide (x = fold))
  let ntest := mtest.countP id
  let ntrain := st.N - ntest
  { st with
    mask_test := mtest
    mask_train := mtrain
    Ntest := ntest
    Ntrain := ntrain
    Ytrain := ((mtrain.zip st.Y).filter (fun p => p.1)).map (fun p => p.2)
    Ytest := ((mtrain.zip st.Y).filter (fun p => !p.1)).map (fun p => p.2)
    cache := CacheT.mk0 ntrain st.nsnps st.cachemem }

/-- Data::mmap_bed: store the filename, map the file (the handle is
modelled by the file id), fail if no FAM/PHENO file fixed the sample count,
then derive len, np = ceil(N / PACK_DENSITY) and nsnps = len / np.  The
result pairs the state as left by the call with the error, if one was
thrown. -/
def mmap_bed (st : DataState) (filename : ℕ) (fileSize : ℕ) : DataState × Option DErr :=
  let st1 := { st with geno_filename := some filename, geno_fin := some filename }
  if st1.N = 0 then (st1, some DErr.configError)
  else
    let len := fileSize - PLINK_OFFSET
    let np := (st1.N + PACK_DENSITY - 1) / PACK_DENSITY
    ({ st1 with len := len, np := np, nsnps := len / np }, none)

/-- The C cast from a nonnegative double to int truncates toward zero:
floor for nonnegative values, ceiling for negative ones. -/
def doubleToInt (q : ℚ) : ℤ :=
  if 0 ≤ q then ⌊q⌋ else ⌈q⌉

/-- Data::make_folds on a given random draw (VectorXd::Random yields
entries in [-1, 1]): folds = ((f + 1) / 2 * nfolds) cast to int. -/
def make_folds (draw : List ℚ) (nfolds : ℕ) : List ℤ :=
  draw.map (fun x => doubleToInt ((x + 1) / 2 * (nfolds : ℚ)))

/-- A concrete state used to instantiate the stateful theorems: 2 samples,
1 variant, 1 covariate marked train-only, currently in test mode with the
second sample selected. -/
noncomputable def baseState : DataState where
  N := 2
  nsnps := 1
  ncovar := 1
  np := 1
  len := 1
  geno_filename := none
  geno_fin := some 0
  bed := [108, 27, 1, 219]
  mode := Mode.test
  Ntrain := 1
  Ntest := 1
  Ncurr := 1
  mask_train := [true, false]
  mask_test := [false, true]
  mask_curr := [false, true]
  ones := List.replicate 1 (1 : ℝ)
  zeros := List.replicate 1 (0 : ℝ)
  folds := [0, 1]
  Y := [[1], [2]]
  Ytrain := [[1]]
  Ytest := [[2]]
  X2 := [[5], [7]]
  covar_actions := [true]
  geno := []
  cache := CacheT.mk0 1 1 0
  cachemem := 0

/-- A concrete state with no phenotype file read yet (N = 0) and no mapped
genotype file. -/
noncomputable def unreadState : DataState where
  N := 0
  nsnps := 0
  ncovar := 0
  np := 0
  len := 0
  geno_filename := none
  geno_fin := none
  bed := []
  mode := Mode.train
  Ntrain := 0
  Ntest := 0
  Ncurr := 0
  mask_train := []
  mask_test := []
  mask_curr := []
  ones := []
  zeros := []
  folds := []
  Y := []
  Ytrain := []
  Ytest := []
  X2 := []
  covar_actions := []
  geno := []
  cache := CacheT.mk0 0 0 0
  cachemem := 0

/-! ## Theorems -/

/-- C1: for every input byte, decode_plink produces exactly 4 genotype
codes, one per 2-bit group taken low-to-high, each given by the rule
a1 = 1 iff bit0 = 0, a2 = 1 iff bit1 = 0, missing sentinel for pattern 01
and dosage a1 + a2 otherwise; over all 256 byte values the output matches
the reference table derived from that rule. -/
theorem decode_plink_matches_reference (b : ℕ) (hb : b < 256) :
    decode_byte b = spec_decode_byte b ∧ (decode_byte b).length = 4 ∧
      decode_plink [b] = spec_decode_byte b := by
  have htab : ∀ x : ℕ, x < 256 → decode_byte x = spec_decode_byte x := by decide
  refine ⟨htab b hb, rfl, ?_⟩
  have h : decode_plink [b] = decode_byte b := by
    simp [decode_plink]
  rw [h, htab b hb]

/-- Concrete instantiation of the decode correctness theorem at byte 0xDB. -/
theorem decode_plink_matches_reference_witness :
    219 < 256 ∧
      (decode_byte 219 = spec_decode_byte 219 ∧ (decode_byte 219).length = 4 ∧
        decode_plink [219] = spec_decode_byte 219) :=
  ⟨by decide, decode_plink_matches_reference 219 (by decide)⟩

lemma loop1_fst (l : List (Bool × ℕ)) :
    (loop1 l).1 = (l.filter (fun p => p.1)).map (fun p => (p.2 : ℚ)) := by
  induction l with
  | nil => rfl
  | cons p t ih =>
    by_cases hm : p.1
    · by_cases hna : (p.2 : ℚ) = ((PLINK_NA : ℕ) : ℚ)
      · simp [loop1, hm, hna, ih]
      · simp [loop1, hm, hna, ih]
    · simp [loop1, hm, ih]

lemma loop1_ngood (l : List (Bool × ℕ)) :
    (loop1 l).2.1 = ((loop1 l).1).countP isGood := by
  induction l with
  | nil => rfl
  | cons p t ih =>
    by_cases hm : p.1
    · by_cases hna : (p.2 : ℚ) = ((PLINK_NA : ℕ) : ℚ)
      · simp [loop1, hm, hna, ih, isGood, List.countP_cons]
      · simp [loop1, hm, hna, ih, isGood, List.countP_cons]
    · simp [loop1, hm, ih]

lemma loop1_sum (l : List (Bool × ℕ)) :
    (loop1 l).2.2 = (((loop1 l).1).filter isGood).sum := by
  induction l with
  | nil => rfl
  | cons p t ih =>
    by_cases hm : p.1
    · by_cases hna : (p.2 : ℚ) = ((PLINK_NA : ℕ) : ℚ)
      · simp [loop1, hm, hna, ih, isGood, List.filter_cons]
      · simp [loop1, hm, hna, ih, isGood, List.filter_cons, add_comm]
    · simp [loop1, hm, ih]

lemma loop2_sum (geno : List ℚ) (mean : ℚ) :
    loop2 geno mean
      = ((geno.filter isGood).map (fun v => (v - mean) * (v - mean))).sum := by
  rw [loop2, List.foldl_reverse]
  induction geno with
  | nil => rfl
  | cons v t ih =>
    by_cases hna : v = ((PLINK_NA : ℕ) : ℚ)
    · simp [hna, ih, isGood, List.filter_cons]
    · simp [hna, ih, isGood, List.filter_cons, add_comm]

lemma genoOf_eq_selVals (g : List ℕ) (mask : List Bool) :
    genoOf g mask = selVals g mask := by
  rw [genoOf, loop1_fst]; rfl

lemma ngoodOf_eq (g : List ℕ) (mask : List Bool) :
    ngoodOf g mask = (nonMissing g mask).length := by
  rw [ngoodOf, loop1_ngood, ← genoOf, genoOf_eq_selVals, nonMissing,
    List.countP_eq_length_filter]
  rfl

lemma sumOf_eq (g : List ℕ) (mask : List Bool) :
    sumOf g mask = (nonMissing g mask).sum := by
  rw [sumOf, loop1_sum, ← genoOf, genoOf_eq_selVals, nonMissing]
  rfl

lemma meanOf_eq (g : List ℕ) (mask : List Bool) :
    meanOf g mask = specMean g mask := by
  rw [meanOf, sumOf_eq, genoOf_eq_selVals, specMean]

lemma sum2Of_eq (g : List ℕ) (mask : List Bool) :
    sum2Of g mask = specSum2 g mask := by
  rw [sum2Of, loop2_sum, genoOf_eq_selVals, meanOf_eq, specSum2, nonMissing]
  rfl

lemma ngoodOf_le (g : List ℕ) (mask : List Bool) :
    ngoodOf g mask ≤ (mask.zip g).length := by
  rw [ngoodOf_eq]
  calc (nonMissing g mask).length ≤ (selVals g mask).length :=
        List.length_filter_le _ _
    _ ≤ (mask.zip g).length := by
        rw [selVals, List.length_map]
        exact List.length_filter_le _ _

lemma denomOf_eq (g : List ℕ) (mask : List Bool)
    (h1 : 1 ≤ ngoodOf g mask) (hN : (mask.zip g).length < 2 ^ 32) :
    denomOf g mask = ngoodOf g mask - 1 := by
  have hle := ngoodOf_le g mask
  rw [denomOf]
  omega

lemma sdOf_eq (g : List ℕ) (mask : List Bool)
    (h1 : 1 ≤ ngoodOf g mask) (hN : (mask.zip g).length < 2 ^ 32) :
    sdOf g mask = specSd g mask := by
  rw [sdOf, specSd, sum2Of_eq, denomOf_eq g mask h1 hN, ngoodOf_eq]

lemma fastBranch_eq_imputeBranch (mean : ℚ) (sd : ℝ) (geno : List ℚ)
    (h : ∀ v ∈ geno, v ≠ ((PLINK_NA : ℕ) : ℚ)) :
    fastBranch mean sd geno = imputeBranch mean sd geno := by
  unfold fastBranch imputeBranch
  refine List.map_congr_left ?_
  intro v hv
  rw [if_neg (h v hv)]

/-- C2: under an active mask with countNonMissing >= 2, the standardizer's
mean is the sum of non-missing dosages over the number of selected samples
(not the non-missing count), its sd is sqrt of the non-missing squared
deviations over countNonMissing - 1, and every selected sample is output as
(v - mean)/sd when non-missing and exactly mean/sd when missing. -/
theorem load_snp_double_spec (g : List ℕ) (mask : List Bool)
    (h2 : 2 ≤ ngoodOf g mask) (hN : (mask.zip g).length < 2 ^ 32) :
    meanOf g mask = specMean g mask ∧ sdOf g mask = specSd g mask ∧
    load_snp_double g mask =
      (selVals g mask).map (fun v =>
        if v = ((PLINK_NA : ℕ) : ℚ) then ((specMean g mask : ℚ) : ℝ) / specSd g mask
        else ((v : ℝ) - ((specMean g mask : ℚ) : ℝ)) / specSd g mask) := by
  have h1 : 1 ≤ ngoodOf g mask := le_trans one_le_two h2
  have hmean := meanOf_eq g mask
  have hsd := sdOf_eq g mask h1 hN
  refine ⟨hmean, hsd, ?_⟩
  have himp : imputeBranch (specMean g mask) (specSd g mask) (selVals g mask)
      = (selVals g mask).map (fun v =>
        if v = ((PLINK_NA : ℕ) : ℚ) then ((specMean g mask : ℚ) : ℝ) / specSd g mask
        else ((v : ℝ) - ((specMean g mask : ℚ) : ℝ)) / specSd g mask) := rfl
  rw [← himp, load_snp_double, hmean, hsd, genoOf_eq_selVals]
  by_cases hfast : ngoodOf g mask = (selVals g mask).length
  · rw [if_pos hfast]
    have hngood : List.countP isGood (selVals g mask) = (selVals g mask).length := by
      have e1 : ngoodOf g mask = List.countP isGood (genoOf g mask) :=
        loop1_ngood (mask.zip g)
      rw [genoOf_eq_selVals] at e1
      rw [← e1]
      exact hfast
    have hall : ∀ v ∈ selVals g mask, v ≠ ((PLINK_NA : ℕ) : ℚ) := by
      intro v hv
      have hg := List.countP_eq_length.1 hngood v hv
      simpa [isGood] using hg
    exact fastBranch_eq_imputeBranch _ _ _ hall
  · rw [if_neg hfast]

/-- Concrete instantiation of the standardizer theorem: two selected
samples with dosages 0 and 2, none missing. -/
theorem load_snp_double_spec_witness :
    2 ≤ ngoodOf [0, 2] [true, true] ∧ ([true, true].zip [0, 2]).length < 2 ^ 32 ∧
      (meanOf [0, 2] [true, true] = specMean [0, 2] [true, true] ∧
       sdOf [0, 2] [true, true] = specSd [0, 2] [true, true] ∧
       load_snp_double [0, 2] [true, true] =
         (selVals [0, 2] [true, true]).map (fun v =>
           if v = ((PLINK_NA : ℕ) : ℚ) then
             ((specMean [0, 2] [true, true] : ℚ) : ℝ) / specSd [0, 2] [true, true]
           else ((v : ℝ) - ((specMean [0, 2] [true, true] : ℚ) : ℝ)) /
             specSd [0, 2] [true, true])) :=
  ⟨by decide, by decide, load_snp_double_spec [0, 2] [true, true] (by decide) (by decide)⟩

/-- C10: when every selected sample is non-missing, load_snp_double takes
the fast path (countNonMissing = Ncurr), and that branch produces exactly
the same output vector as the general imputing branch would on the same
input. -/
theorem fast_path_agrees_with_general (g : List ℕ) (mask : List Bool)
    (h : ∀ v ∈ selVals g mask, v ≠ ((PLINK_NA : ℕ) : ℚ)) :
    load_snp_double g mask
      = fastBranch (meanOf g mask) (sdOf g mask) (genoOf g mask) ∧
    fastBranch (meanOf g mask) (sdOf g mask) (genoOf g mask)
      = imputeBranch (meanOf g mask) (sdOf g mask) (genoOf g mask) := by
  have hgood : ∀ v ∈ genoOf g mask, v ≠ ((PLINK_NA : ℕ) : ℚ) := by
    rw [genoOf_eq_selVals]; exact h
  have hfast : ngoodOf g mask = (genoOf g mask).length := by
    have e1 : ngoodOf g mask = List.countP isGood (genoOf g mask) :=
      loop1_ngood (mask.zip g)
    rw [e1]
    refine List.countP_eq_length.2 ?_
    intro v hv
    simp [isGood, hgood v hv]
  constructor
  · rw [load_snp_double, if_pos hfast]
  · exact fastBranch_eq_imputeBranch _ _ _ hgood

/-- Concrete instantiation of the branch-agreement theorem: dosages 0 and
2, both selected, none missing. -/
theorem fast_path_agrees_with_general_witness :
    (∀ v ∈ selVals [0, 2] [true, true], v ≠ ((PLINK_NA : ℕ) : ℚ)) ∧
      (load_snp_double [0, 2] [true, true]
         = fastBranch (meanOf [0, 2] [true, true]) (sdOf [0, 2] [true, true])
             (genoOf [0, 2] [true, true]) ∧
       fastBranch (meanOf [0, 2] [true, true]) (sdOf [0, 2] [true, true])
             (genoOf [0, 2] [true, true])
         = imputeBranch (meanOf [0, 2] [true, true]) (sdOf [0, 2] [true, true])
             (genoOf [0, 2] [true, true])) :=
  ⟨by decide, fast_path_agrees_with_general [0, 2] [true, true] (by decide)⟩

/-- C4 evaluation: a variant whose selected samples are all missing is
standardized without any error being raised; the embedding (in which the
division 0/0 that IEEE arithmetic turns into NaN is the real-number
convention 0/0 = 0) returns a full-length output vector. -/
theorem degenerate_variant_returns_vector :
    load_snp_double [PLINK_NA, PLINK_NA] [true, true] = [0, 0] := by
  have hbr : ¬ (ngoodOf [PLINK_NA, PLINK_NA] [true, true]
      = (genoOf [PLINK_NA, PLINK_NA] [true, true]).length) := by decide
  have hgeno : genoOf [PLINK_NA, PLINK_NA] [true, true]
      = [((PLINK_NA : ℕ) : ℚ), ((PLINK_NA : ℕ) : ℚ)] := by decide
  have hsum : sumOf [PLINK_NA, PLINK_NA] [true, true] = 0 := rfl
  have hmean : meanOf [PLINK_NA, PLINK_NA] [true, true] = 0 := by
    rw [meanOf, hsum, zero_div]
  rw [load_snp_double, if_neg hbr, hgeno, hmean]
  simp [imputeBranch]

/-- C3: selecting a fold discards the variant cache wholesale: after
split_data the cache is a fresh empty cache sized to the new Ntrain, and
every lookup into it misses, so no coordinate request after the mask
change can observe a vector computed under the previous mask. -/
theorem split_data_discards_cache (st : DataState) (fold : ℤ) (j : ℕ) :
    (split_data st fold).cache.entries = [] ∧
    (split_data st fold).cache.n = (split_data st fold).Ntrain ∧
    ((split_data st fold).cache.get j).1 = none := by
  refine ⟨rfl, rfl, ?_⟩
  simp [split_data, CacheT.mk0, CacheT.get]

/-- C5: in test mode, get_snp loads the variant from the store and
standardizes it directly; it performs no cache lookup and no insertion, so
the cache (contents and recency order alike) is unchanged. -/
theorem get_snp_test_bypasses_cache (st : DataState) (j : ℕ)
    (h : st.mode = Mode.test) :
    (get_snp st j).1 = load_snp st j ∧ (get_snp st j).2.cache = st.cache := by
  have hne : ¬ (st.mode = Mode.train) := by rw [h]; simp
  rw [get_snp, if_neg hne]
  exact ⟨rfl, rfl⟩

/-- Concrete instantiation of the test-mode cache-bypass theorem. -/
theorem get_snp_test_bypasses_cache_witness :
    baseState.mode = Mode.test ∧
      ((get_snp baseState 0).1 = load_snp baseState 0 ∧
       (get_snp baseState 0).2.cache = baseState.cache) :=
  ⟨rfl, get_snp_test_bypasses_cache baseState 0 rfl⟩

lemma maskedColumn_length (X2 : List (List ℝ)) (mask : List Bool) (cidx : ℕ)
    (h : mask.length = X2.length) :
    (maskedColumn X2 mask cidx).length = mask.countP id := by
  induction mask generalizing X2 with
  | nil => simp [maskedColumn]
  | cons b t ih =>
    cases X2 with
    | nil => simp at h
    | cons r rs =>
      have hlen : t.length = rs.length := by simpa using h
      cases b with
      | false =>
        simpa [maskedColumn, List.filter_cons, List.countP_cons] using ih rs hlen
      | true =>
        simpa [maskedColumn, List.filter_cons, List.countP_cons] using ih rs hlen

/-- C6: after a mode switch, coordinate 0 is the all-ones intercept of
length Ncurr; coordinates 1..nsnps are the standardized variants j - 1;
later coordinates address covariate j - nsnps - 1, which in test mode is
the all-zero vector of length Ntest when marked train-only, and otherwise
the covariate column restricted to the active mask, of length Ncurr. -/
theorem get_coordinate_routes (st : DataState) (m : Mode) (j : ℕ)
    (hmask : (set_mode st m).mask_curr.countP id = (set_mode st m).Ncurr)
    (hlen : (set_mode st m).mask_curr.length = st.X2.length) :
    (get_coordinate (set_mode st m) 0).1
        = List.replicate (set_mode st m).Ncurr (1 : ℝ) ∧
    (1 ≤ j → j ≤ st.nsnps →
      (get_coordinate (set_mode st m) j).1 = (get_snp (set_mode st m) (j - 1)).1) ∧
    (st.nsnps < j → m = Mode.test →
      st.covar_actions.getD (j - st.nsnps - 1) false = true →
      (get_coordinate (set_mode st m) j).1 = List.replicate st.Ntest (0 : ℝ)) ∧
    (st.nsnps < j →
      ¬(m = Mode.test ∧ st.covar_actions.getD (j - st.nsnps - 1) false = true) →
      (get_coordinate (set_mode st m) j).1
          = maskedColumn st.X2 (set_mode st m).mask_curr (j - st.nsnps - 1) ∧
      ((get_coordinate (set_mode st m) j).1).length = (set_mode st m).Ncurr) := by
  refine ⟨?_, ?_, ?_, ?_⟩
  · rw [get_coordinate, if_pos rfl]
    rfl
  · intro h1 h2
    have hj0 : ¬ (j = 0) := by omega
    rw [get_coordinate, if_neg hj0,
      if_pos (show j ≤ (set_mode st m).nsnps from h2)]
  · intro hj hm hcov
    have hj0 : ¬ (j = 0) := by omega
    have hjs : ¬ (j ≤ (set_mode st m).nsnps) := by
      show ¬ (j ≤ st.nsnps); omega
    rw [get_coordinate, if_neg hj0, if_neg hjs]
    subst hm
    rw [if_pos (⟨rfl, hcov⟩ :
      (set_mode st Mode.test).mode = Mode.test ∧
        (set_mode st Mode.test).covar_actions.getD
          (j - (set_mode st Mode.test).nsnps - 1) false = true)]
    show List.replicate (if Mode.test = Mode.train then st.Ntrain else st.Ntest)
        (0 : ℝ) = List.replicate st.Ntest (0 : ℝ)
    simp
  · intro hj hnot
    have hj0 : ¬ (j = 0) := by omega
    have hjs : ¬ (j ≤ (set_mode st m).nsnps) := by
      show ¬ (j ≤ st.nsnps); omega
    have hc2 : ¬ ((set_mode st m).mode = Mode.test ∧
        (set_mode st m).covar_actions.getD
          (j - (set_mode st m).nsnps - 1) false = true) :=
      fun hc => hnot hc
    rw [get_coordinate, if_neg hj0, if_neg hjs, if_neg hc2]
    refine ⟨rfl, ?_⟩
    show (maskedColumn st.X2 (set_mode st m).mask_curr (j - st.nsnps - 1)).length
        = (set_mode st m).Ncurr
    rw [maskedColumn_length st.X2 (set_mode st m).mask_curr _ hlen]
    exact hmask

/-- Concrete instantiation of the coordinate-routing theorem at j = 2,
in test mode, with one variant and one train-only covariate. -/
theorem get_coordinate_routes_witness :
    (set_mode baseState Mode.test).mask_curr.countP id
        = (set_mode baseState Mode.test).Ncurr ∧
    (set_mode baseState Mode.test).mask_curr.length = baseState.X2.length ∧
    ((get_coordinate (set_mode baseState Mode.test) 0).1
        = List.replicate (set_mode baseState Mode.test).Ncurr (1 : ℝ) ∧
     (1 ≤ 2 → 2 ≤ baseState.nsnps →
       (get_coordinate (set_mode baseState Mode.test) 2).1
           = (get_snp (set_mode baseState Mode.test) (2 - 1)).1) ∧
     (baseState.nsnps < 2 → Mode.test = Mode.test →
       baseState.covar_actions.getD (2 - baseState.nsnps - 1) false = true →
       (get_coordinate (set_mode baseState Mode.test) 2).1
           = List.replicate baseState.Ntest (0 : ℝ)) ∧
     (baseState.nsnps < 2 →
       ¬(Mode.test = Mode.test ∧
          baseState.covar_actions.getD (2 - baseState.nsnps - 1) false = true) →
       (get_coordinate (set_mode baseState Mode.test) 2).1
           = maskedColumn baseState.X2 (set_mode baseState Mode.test).mask_curr
               (2 - baseState.nsnps - 1) ∧
       ((get_coordinate (set_mode baseState Mode.test) 2).1).length
           = (set_mode baseState Mode.test).Ncurr)) :=
  ⟨by decide, by decide,
    get_coordinate_routes baseState Mode.test 2 (by decide) (by decide)⟩

/-- C7: with the sample count known, opening the genotype file succeeds
with byte stride np = ceil(sampleCount / PACK_DENSITY) and variant count
nsnps = (fileSize - header) / np computed by truncating division: the
variants fully contained in the payload are kept, any trailing partial
variant (a payload that is not an exact multiple of np) is silently
dropped, and no error is raised. -/
theorem mmap_bed_truncates (st : DataState) (filename fileSize : ℕ)
    (hN : st.N ≠ 0) (_hsz : PLINK_OFFSET ≤ fileSize) :
    (mmap_bed st filename fileSize).2 = none ∧
    (mmap_bed st filename fileSize).1.np
        = (st.N + PACK_DENSITY - 1) / PACK_DENSITY ∧
    st.N ≤ PACK_DENSITY * (mmap_bed st filename fileSize).1.np ∧
    PACK_DENSITY * (mmap_bed st filename fileSize).1.np < st.N + PACK_DENSITY ∧
    (mmap_bed st filename fileSize).1.nsnps
        = (fileSize - PLINK_OFFSET) / (mmap_bed st filename fileSize).1.np ∧
    (mmap_bed st filename fileSize).1.nsnps * (mmap_bed st filename fileSize).1.np
        ≤ fileSize - PLINK_OFFSET ∧
    fileSize - PLINK_OFFSET
        < ((mmap_bed st filename fileSize).1.nsnps + 1)
            * (mmap_bed st filename fileSize).1.np ∧
    ((fileSize - PLINK_OFFSET) % (mmap_bed st filename fileSize).1.np ≠ 0 →
      (mmap_bed st filename fileSize).1.nsnps
          * (mmap_bed st filename fileSize).1.np < fileSize - PLINK_OFFSET) := by
  have herr : (mmap_bed st filename fileSize).2 = none := by
    simp [mmap_bed, hN]
  have hnp : (mmap_bed st filename fileSize).1.np
      = (st.N + PACK_DENSITY - 1) / PACK_DENSITY := by
    simp [mmap_bed, hN]
  have hns : (mmap_bed st filename fileSize).1.nsnps
      = (fileSize - PLINK_OFFSET) / ((st.N + PACK_DENSITY - 1) / PACK_DENSITY) := by
    simp [mmap_bed, hN]
  have hpd : PACK_DENSITY = 4 := rfl
  have hnppos : 0 < (st.N + PACK_DENSITY - 1) / PACK_DENSITY := by
    rw [hpd]; omega
  have hceil : st.N ≤ PACK_DENSITY * ((st.N + PACK_DENSITY - 1) / PACK_DENSITY) ∧
      PACK_DENSITY * ((st.N + PACK_DENSITY - 1) / PACK_DENSITY)
        < st.N + PACK_DENSITY := by
    rw [hpd]; omega
  refine ⟨herr, hnp, ?_, ?_, ?_, ?_, ?_, ?_⟩
  · rw [hnp]; exact hceil.1
  · rw [hnp]; exact hceil.2
  · rw [hns, hnp]
  · rw [hns, hnp]
    exact Nat.div_mul_le_self _ _
  · rw [hns, hnp]
    have hdm := Nat.div_add_mod (fileSize - PLINK_OFFSET)
      ((st.N + PACK_DENSITY - 1) / PACK_DENSITY)
    have hmod : (fileSize - PLINK_OFFSET) % ((st.N + PACK_DENSITY - 1) / PACK_DENSITY)
        < (st.N + PACK_DENSITY - 1) / PACK_DENSITY :=
      Nat.mod_lt _ hnppos
    calc fileSize - PLINK_OFFSET
        = ((st.N + PACK_DENSITY - 1) / PACK_DENSITY)
          * ((fileSize - PLINK_OFFSET) / ((st.N + PACK_DENSITY - 1) / PACK_DENSITY))
          + (fileSize - PLINK_OFFSET) % ((st.N + PACK_DENSITY - 1) / PACK_DENSITY) :=
          hdm.symm
      _ < ((st.N + PACK_DENSITY - 1) / PACK_DENSITY)
          * ((fileSize - PLINK_OFFSET) / ((st.N + PACK_DENSITY - 1) / PACK_DENSITY))
          + ((st.N + PACK_DENSITY - 1) / PACK_DENSITY) :=
          Nat.add_lt_add_left hmod _
      _ = ((fileSize - PLINK_OFFSET) / ((st.N + PACK_DENSITY - 1) / PACK_DENSITY) + 1)
          * ((st.N + PACK_DENSITY - 1) / PACK_DENSITY) := by ring
  · intro hr
    rw [hns, hnp]
    rw [hnp] at hr
    have hdm := Nat.div_add_mod (fileSize - PLINK_OFFSET)
      ((st.N + PACK_DENSITY - 1) / PACK_DENSITY)
    have hpos : 0 < (fileSize - PLINK_OFFSET)
        % ((st.N + PACK_DENSITY - 1) / PACK_DENSITY) :=
      Nat.pos_of_ne_zero hr
    calc (fileSize - PLINK_OFFSET) / ((st.N + PACK_DENSITY - 1) / PACK_DENSITY)
          * ((st.N + PACK_DENSITY - 1) / PACK_DENSITY)
        = ((st.N + PACK_DENSITY - 1) / PACK_DENSITY)
          * ((fileSize - PLINK_OFFSET) / ((st.N + PACK_DENSITY - 1) / PACK_DENSITY)) := by
          rw [Nat.mul_comm]
      _ < ((st.N + PACK_DENSITY - 1) / PACK_DENSITY)
          * ((fileSize - PLINK_OFFSET) / ((st.N + PACK_DENSITY - 1) / PACK_DENSITY))
          + (fileSize - PLINK_OFFSET) % ((st.N + PACK_DENSITY - 1) / PACK_DENSITY) :=
          Nat.lt_add_of_pos_right hpos
      _ = fileSize - PLINK_OFFSET := hdm

/-- Concrete instantiation of the truncating-open theorem: 2 samples
(np = 1), a 7-byte file (payload 4), hence 4 whole variants and no
trailing bytes dropped beyond the remainder test. -/
theorem mmap_bed_truncates_witness :
    baseState.N ≠ 0 ∧ PLINK_OFFSET ≤ 9 ∧
      ((mmap_bed baseState 0 9).2 = none ∧
       (mmap_bed baseState 0 9).1.np
           = (baseState.N + PACK_DENSITY - 1) / PACK_DENSITY ∧
       baseState.N ≤ PACK_DENSITY * (mmap_bed baseState 0 9).1.np ∧
       PACK_DENSITY * (mmap_bed baseState 0 9).1.np < baseState.N + PACK_DENSITY ∧
       (mmap_bed baseState 0 9).1.nsnps
           = (9 - PLINK_OFFSET) / (mmap_bed baseState 0 9).1.np ∧
       (mmap_bed baseState 0 9).1.nsnps * (mmap_bed baseState 0 9).1.np
           ≤ 9 - PLINK_OFFSET ∧
       9 - PLINK_OFFSET
           < ((mmap_bed baseState 0 9).1.nsnps + 1) * (mmap_bed baseState 0 9).1.np ∧
       ((9 - PLINK_OFFSET) % (mmap_bed baseState 0 9).1.np ≠ 0 →
         (mmap_bed baseState 0 9).1.nsnps * (mmap_bed baseState 0 9).1.np
             < 9 - PLINK_OFFSET)) :=
  ⟨by decide, by decide, mmap_bed_truncates baseState 0 9 (by decide) (by decide)⟩

/-- C8 as stated is refuted: opening with sampleCount = 0 does raise the
configuration error, but only after the file has been mapped and the
filename stored, so the mapped-file handle is mutated, not left unchanged. -/
theorem mmap_bed_mutates_before_config_error :
    (mmap_bed unreadState 5 100).2 = some DErr.configError ∧
    ¬ ((mmap_bed unreadState 5 100).1.geno_fin = unreadState.geno_fin) := by
  refine ⟨rfl, ?_⟩
  decide

/-- C8 amended: opening with sampleCount = 0 fails with the configuration
error; the error is raised after the filename and mapped-file handle are
stored (both are mutated) but before len, np and nsnps are recomputed
(those are unchanged). -/
theorem mmap_bed_config_error_state (st : DataState) (filename fileSize : ℕ)
    (h : st.N = 0) :
    (mmap_bed st filename fileSize).2 = some DErr.configError ∧
    (mmap_bed st filename fileSize).1.geno_filename = some filename ∧
    (mmap_bed st filename fileSize).1.geno_fin = some filename ∧
    (mmap_bed st filename fileSize).1.len = st.len ∧
    (mmap_bed st filename fileSize).1.np = st.np ∧
    (mmap_bed st filename fileSize).1.nsnps = st.nsnps := by
  refine ⟨?_, ?_, ?_, ?_, ?_, ?_⟩ <;> simp [mmap_bed, h]

/-- Concrete instantiation of the amended config-error theorem. -/
theorem mmap_bed_config_error_state_witness :
    unreadState.N = 0 ∧
      ((mmap_bed unreadState 5 100).2 = some DErr.configError ∧
       (mmap_bed unreadState 5 100).1.geno_filename = some 5 ∧
       (mmap_bed unreadState 5 100).1.geno_fin = some 5 ∧
       (mmap_bed unreadState 5 100).1.len = unreadState.len ∧
       (mmap_bed unreadState 5 100).1.np = unreadState.np ∧
       (mmap_bed unreadState 5 100).1.nsnps = unreadState.nsnps) :=
  ⟨rfl, mmap_bed_config_error_state unreadState 5 100 rfl⟩

lemma doubleToInt_of_nonneg (q : ℚ) (h : 0 ≤ q) : doubleToInt q = ⌊q⌋ :=
  if_pos h

/-- C9 as stated is refuted at the boundary: the draw value 1 (allowed,
since VectorXd::Random ranges over the closed interval [-1, 1]) yields
(1 + 1) / 2 * nfolds = nfolds, whose truncation is nfolds itself, outside
the half-open range [0, nfolds). -/
theorem make_folds_boundary_counterexample :
    ¬ (∀ i ∈ make_folds [(1 : ℚ)] 1, 0 ≤ i ∧ i < (1 : ℕ)) := by
  intro h
  have hc : make_folds [(1 : ℚ)] 1 = [1] := by
    norm_num [make_folds, doubleToInt]
  have h1 : (1 : ℤ) ∈ make_folds [(1 : ℚ)] 1 := by
    rw [hc]; exact List.mem_singleton.2 rfl
  have := (h 1 h1).2
  norm_num at this

/-- C9 amended: for every draw with entries in [-1, 1] and nfolds >= 1,
every assigned fold id lies in the closed range [0, nfolds]; it lies in the
half-open range [0, nfolds) whenever every draw entry is strictly below 1
(the boundary value 1 is the only input mapped to nfolds itself). -/
theorem make_folds_range (draw : List ℚ) (nfolds : ℕ) (hk : 1 ≤ nfolds)
    (hb : ∀ x ∈ draw, -1 ≤ x ∧ x ≤ 1) :
    (∀ i ∈ make_folds draw nfolds, 0 ≤ i ∧ i ≤ (nfolds : ℤ)) ∧
    ((∀ x ∈ draw, x < 1) →
      ∀ i ∈ make_folds draw nfolds, 0 ≤ i ∧ i < (nfolds : ℤ)) := by
  have hq0 : ∀ x : ℚ, -1 ≤ x → 0 ≤ (x + 1) / 2 * (nfolds : ℚ) := by
    intro x hx
    have h1 : (0 : ℚ) ≤ (x + 1) / 2 := by linarith
    exact mul_nonneg h1 (Nat.cast_nonneg nfolds)
  have hlow : ∀ x : ℚ, -1 ≤ x → 0 ≤ doubleToInt ((x + 1) / 2 * (nfolds : ℚ)) := by
    intro x hx
    rw [doubleToInt_of_nonneg _ (hq0 x hx)]
    exact Int.le_floor.2 (by exact_mod_cast hq0 x hx)
  have hhigh : ∀ x : ℚ, -1 ≤ x → x ≤ 1 →
      doubleToInt ((x + 1) / 2 * (nfolds : ℚ)) ≤ (nfolds : ℤ) := by
    intro x hx hx1
    rw [doubleToInt_of_nonneg _ (hq0 x hx)]
    have h1 : (x + 1) / 2 ≤ 1 := by linarith
    have h2 : (x + 1) / 2 * (nfolds : ℚ) ≤ (nfolds : ℚ) := by
      calc (x + 1) / 2 * (nfolds : ℚ) ≤ 1 * (nfolds : ℚ) :=
            mul_le_mul_of_nonneg_right h1 (Nat.cast_nonneg nfolds)
        _ = (nfolds : ℚ) := one_mul _
    calc ⌊(x + 1) / 2 * (nfolds : ℚ)⌋ ≤ ⌊(nfolds : ℚ)⌋ := Int.floor_le_floor h2
      _ = (nfolds : ℤ) := Int.floor_natCast nfolds
  have hstrict : ∀ x : ℚ, -1 ≤ x → x < 1 →
      doubleToInt ((x + 1) / 2 * (nfolds : ℚ)) < (nfolds : ℤ) := by
    intro x hx hx1
    rw [doubleToInt_of_nonneg _ (hq0 x hx)]
    have hkpos : (0 : ℚ) < (nfolds : ℚ) := by
      exact_mod_cast Nat.pos_of_ne_zero (by omega)
    have h1 : (x + 1) / 2 < 1 := by linarith
    have h2 : (x + 1) / 2 * (nfolds : ℚ) < (nfolds : ℚ) := by
      calc (x + 1) / 2 * (nfolds : ℚ) < 1 * (nfolds : ℚ) :=
            mul_lt_mul_of_pos_right h1 hkpos
        _ = (nfolds : ℚ) := one_mul _
    exact Int.floor_lt.2 (by exact_mod_cast h2)
  constructor
  · intro i hi
    rcases List.mem_map.1 hi with ⟨x, hx, rfl⟩
    exact ⟨hlow x (hb x hx).1, hhigh x (hb x hx).1 (hb x hx).2⟩
  · intro hs i hi
    rcases List.mem_map.1 hi with ⟨x, hx, rfl⟩
    exact ⟨hlow x (hb x hx).1, hstrict x (hb x hx).1 (hs x hx)⟩

/-- Concrete instantiation of the fold-range theorem: draw value 0 with 2
folds. -/
theorem make_folds_range_witness :
    1 ≤ 2 ∧ (∀ x ∈ [(0 : ℚ)], -1 ≤ x ∧ x ≤ 1) ∧
      ((∀ i ∈ make_folds [(0 : ℚ)] 2, 0 ≤ i ∧ i ≤ ((2 : ℕ) : ℤ)) ∧
       ((∀ x ∈ [(0 : ℚ)], x < 1) →
         ∀ i ∈ make_folds [(0 : ℚ)] 2, 0 ≤ i ∧ i < ((2 : ℕ) : ℤ))) :=
  ⟨by decide, by decide, make_folds_range [(0 : ℚ)] 2 (by decide) (by decide)⟩
